import Mathlib

/-!
Shallow embedding of the game-ranking subsystem of the gamingPortal server
(`src/services/GameRankingService.js` and the validation in
`src/routes/ranking.js`), together with proofs of the specified properties.

Modelling conventions:
* A JS game object becomes the `Game` structure; fields that may be absent
  (`undefined`) are `Option`-valued.  Timestamps (ISO strings produced by
  `new Date().toISOString()` and compared through `new Date(x)`) are modelled
  as natural numbers (milliseconds), with the JS default `new Date(x || 0)`
  rendered as `Option.getD 0`.
* `Array.prototype.sort` with a comparator is a stable sort; it is modelled by
  `List.insertionSort` (stable) over the non-strict order induced by the
  comparator (`comparator a b ≤ 0`).
* In-place mutation of shared objects is modelled by explicit functional
  update; each service method is a pure function from the loaded collection
  to `Except`, where `Except.ok` carries the collection that would be saved
  back to the store and `Except.error` carries the thrown message (so an
  error means nothing is written).
* `Math.round(totalPlays / games.length)` (round half up on non-negative
  reals) is modelled exactly on rationals as `(2 * totalPlays + n) / (2 * n)`
  in natural division.
-/

/-- One game record, as stored in the `games` array of the collection JSON.
Fields the ranking service never reads are represented by `name`; absent JS
fields are `none`. -/
structure Game where
  id : String
  name : String := ""
  playCount : Option Nat := none
  lastPlayed : Option Nat := none
  isActive : Option Bool := none
  rank : Option Nat := none
  manualRank : Option Nat := none
  statusUpdatedAt : Option Nat := none
  rankUpdatedAt : Option Nat := none
  createdAt : Option Nat := none
deriving Repr, DecidableEq

/-- The JS test `game.isActive !== false` selecting records eligible for
automatic ranking. -/
def isActiveGame (g : Game) : Bool := g.isActive != some false

/-- The JS test `game.isActive === false` selecting records excluded from
automatic ranking. -/
def isInactiveGame (g : Game) : Bool := g.isActive == some false

/-- The JS test `game.manualRank !== undefined` selecting pinned records. -/
def hasManualRank (g : Game) : Bool := g.manualRank != none

/-- The JS test `game.manualRank === undefined` selecting auto-ranked
records. -/
def noManualRank (g : Game) : Bool := g.manualRank == none

/-- Non-strict order induced by the play-count comparator
`(a, b) => playCountB - playCountA`, ties broken by
`lastPlayedB - lastPlayedA` (with `playCount || 0` and
`new Date(lastPlayed || 0)` defaults): `beatsOrd a b` holds when the
comparator applied to `(a, b)` is `≤ 0`, i.e. `a` sorts no later than `b`. -/
def beatsOrd (a b : Game) : Prop :=
  b.playCount.getD 0 < a.playCount.getD 0 ∨
    (a.playCount.getD 0 = b.playCount.getD 0 ∧
      b.lastPlayed.getD 0 ≤ a.lastPlayed.getD 0)

instance : DecidableRel beatsOrd := fun _ _ =>
  inferInstanceAs (Decidable (_ ∨ _))

instance : IsTotal Game beatsOrd where
  total a b := by
    unfold beatsOrd
    omega

instance : IsTrans Game beatsOrd where
  trans a b c hab hbc := by
    unfold beatsOrd at *
    omega

/-- The sort key `game.rank || 999` (absent or zero rank falls back to the
sentinel `999`). -/
def rankKey (g : Game) : Nat :=
  if g.rank.getD 0 = 0 then 999 else g.rank.getD 0

/-- Non-strict order induced by the comparator
`(a, b) => (a.rank || 999) - (b.rank || 999)`. -/
def rankOrd (a b : Game) : Prop := rankKey a ≤ rankKey b

instance : DecidableRel rankOrd := fun _ _ =>
  inferInstanceAs (Decidable (_ ≤ _))

instance : IsTotal Game rankOrd where
  total a b := Nat.le_total (rankKey a) (rankKey b)

instance : IsTrans Game rankOrd where
  trans _ _ _ hab hbc := Nat.le_trans hab hbc

/-- The loop `sortedGames.forEach((game, index) => { game.rank = index + 1 })`,
generalised to an arbitrary first rank `n`. -/
def assignRanks : Nat → List Game → List Game
  | _, [] => []
  | n, g :: gs => { g with rank := some n } :: assignRanks (n + 1) gs

/-- The statement `if (!game.rank) { game.rank = sortedGames.length + 1 }`
applied to one inactive record, where `n` is the number of sorted active
records. -/
def overflowFix (n : Nat) (g : Game) : Game :=
  if g.rank.getD 0 = 0 then { g with rank := some (n + 1) } else g

/-- `calculateRankings(games)`: filter to active records, stable-sort them by
the play-count comparator, assign dense ranks `1..N`, give never-ranked
inactive records the shared overflow rank `N + 1`, and return the sorted
active records followed by the inactive records. -/
def calculateRankings (games : List Game) : List Game :=
  let sortedGames := (games.filter isActiveGame).insertionSort beatsOrd
  let rankedActive := assignRanks 1 sortedGames
  let inactiveGames := (games.filter isInactiveGame).map
    (overflowFix sortedGames.length)
  rankedActive ++ inactiveGames

/-- The loop `while (usedRanks.has(autoRank)) autoRank++` run with `fuel`
remaining iterations. -/
def nextFreeAux : Nat → Finset Nat → Nat → Nat
  | 0, _, n => n
  | fuel + 1, used, n => if n ∈ used then nextFreeAux fuel used (n + 1) else n

/-- Smallest counter value `≥ n` not in `used` (the JS `while` loop always
terminates because `used` is finite; `used.card + 1` steps suffice). -/
def nextFree (used : Finset Nat) (n : Nat) : Nat :=
  nextFreeAux (used.card + 1) used n

/-- The loop assigning ranks to the sorted auto-ranked records while skipping
values in `usedRanks` and adding each assigned value to `usedRanks`. -/
def assignAutoRanks (used : Finset Nat) (next : Nat) : List Game → List Game
  | [] => []
  | g :: gs =>
      let r := nextFree used next
      { g with rank := some r } :: assignAutoRanks (insert r used) (r + 1) gs

/-- `calculateRankingsWithManualOverrides(games)`: split into pinned
(`manualRank !== undefined`) and auto records, stable-sort the auto records
by the play-count comparator, assign them the increasing counter values that
skip the set of pinned `manualRank` values, set each pinned record's `rank`
to its `manualRank`, and return everything sorted by `rank || 999`. -/
def calculateRankingsWithManualOverrides (games : List Game) : List Game :=
  let manualRankGames := games.filter hasManualRank
  let autoRankGames := games.filter noManualRank
  let sortedAutoGames := autoRankGames.insertionSort beatsOrd
  let usedRanks := (manualRankGames.filterMap Game.manualRank).toFinset
  let rankedAuto := assignAutoRanks usedRanks 1 sortedAutoGames
  let pinned := manualRankGames.map (fun g => { g with rank := g.manualRank })
  (pinned ++ rankedAuto).insertionSort rankOrd

/-- The in-place update of `games[gameIndex]`. -/
def modifyAt (f : Game → Game) : Nat → List Game → List Game
  | _, [] => []
  | 0, g :: gs => f g :: gs
  | n + 1, g :: gs => g :: modifyAt f n gs

/-- The statements `game.playCount = (game.playCount || 0) + 1` and
`game.lastPlayed = new Date().toISOString()`, with `now` the current time. -/
def bumpPlay (now : Nat) (g : Game) : Game :=
  { g with playCount := some (g.playCount.getD 0 + 1), lastPlayed := some now }

/-- `trackGamePlay(gameId)` applied to the loaded collection: find the target
record, bump its play data, recompute all rankings with `calculateRankings`,
and return the updated record together with the collection to save.  The JS
method returns the mutated object itself; with unique ids this is the record
with the target id in the recomputed collection, modelled by `find?`.  An
absent id throws, re-wrapped by the surrounding `catch`. -/
def trackGamePlay (games : List Game) (gameId : String) (now : Nat) :
    Except String (Option Game × List Game) :=
  match games.findIdx? (fun g => g.id == gameId) with
  | none => Except.error
      ("Failed to track game play: Game with ID " ++ gameId ++ " not found")
  | some i =>
      let updated := modifyAt (bumpPlay now) i games
      let rankedGames := calculateRankings updated
      Except.ok (rankedGames.find? (fun g => g.id == gameId), rankedGames)

/-- `updateGameStatus(gameId, isActive)` applied to the loaded collection. -/
def updateGameStatus (games : List Game) (gameId : String) (isActive : Bool)
    (now : Nat) : Except String (Option Game × List Game) :=
  match games.findIdx? (fun g => g.id == gameId) with
  | none => Except.error
      ("Failed to update game status: Game with ID " ++ gameId ++ " not found")
  | some i =>
      let updated := modifyAt
        (fun g => { g with isActive := some isActive,
                           statusUpdatedAt := some now }) i games
      let rankedGames := calculateRankings updated
      Except.ok (rankedGames.find? (fun g => g.id == gameId), rankedGames)

/-- `setGameRank(gameId, newRank)` applied to the loaded collection: set
`manualRank` and `rank` on the target, stamp `rankUpdatedAt`, then recompute
with `calculateRankingsWithManualOverrides`. -/
def setGameRank (games : List Game) (gameId : String) (newRank : Nat)
    (now : Nat) : Except String (Option Game × List Game) :=
  match games.findIdx? (fun g => g.id == gameId) with
  | none => Except.error
      ("Failed to set game rank: Game with ID " ++ gameId ++ " not found")
  | some i =>
      let updated := modifyAt
        (fun g => { g with manualRank := some newRank,
                           rank := some newRank,
                           rankUpdatedAt := some now }) i games
      let rankedGames := calculateRankingsWithManualOverrides updated
      Except.ok (rankedGames.find? (fun g => g.id == gameId), rankedGames)

/-- The `PUT /api/ranking/set-rank` handler body
(`if (!gameId || !rank || rank < 1) return 400`, then
`setGameRank(gameId, parseInt(rank))`): the spec-level `setManualRank`
operation is this validation followed by `setGameRank`.  The body field
`rank` is a JS number; finite doubles are rationals, so it is modelled as a
rational, with `!rank` its zero test (`NaN`, which is also falsy, the
non-finite doubles and non-numeric bodies lie outside the model).  A value
that passes the check satisfies `1 ≤ rank`, and on such values `parseInt`
(stringify, then parse the leading integer part) is truncation toward zero,
i.e. the floor. -/
def setRankEndpoint (games : List Game) (gameId : String) (rank : ℚ)
    (now : Nat) : Except String (Option Game × List Game) :=
  if gameId = "" ∨ rank = 0 ∨ rank < 1 then
    Except.error "Game ID and valid rank (>= 1) are required"
  else
    setGameRank games gameId (Int.floor rank).toNat now

/-- `getTopGames(limit, activeOnly)` applied to the loaded collection:
optionally filter to active records, stable-sort ascending by `rank || 999`,
and take the first `limit` entries (`slice(0, limit)`). -/
def getTopGames (games : List Game) (limit : Nat) (activeOnly : Bool) :
    List Game :=
  let filtered := if activeOnly then games.filter isActiveGame else games
  (filtered.insertionSort rankOrd).take limit

/-- Result shape of `getGameStatistics`. -/
structure GameStatistics where
  totalGames : Nat
  activeGames : Nat
  inactiveGames : Nat
  totalPlays : Nat
  mostPlayedGame : Option Game
  averagePlaysPerGame : Nat
deriving Repr, DecidableEq

/-- The reduce accumulator literal `{ playCount: 0 }` (its other fields are
never read). -/
def zeroPlays : Game := { id := "", playCount := some 0 }

/-- `getGameStatistics()` applied to the loaded collection.  `Math.round` on
the non-negative average is round half up, modelled exactly as
`(2 * totalPlays + n) / (2 * n)` in natural division. -/
def getGameStatistics (games : List Game) : GameStatistics :=
  let activeGames := games.filter isActiveGame
  let totalPlays := games.foldl (fun sum g => sum + g.playCount.getD 0) 0
  let mostPlayedGame := games.foldl
    (fun mx g => if mx.playCount.getD 0 < g.playCount.getD 0 then g else mx)
    zeroPlays
  { totalGames := games.length
    activeGames := activeGames.length
    inactiveGames := games.length - activeGames.length
    totalPlays := totalPlays
    mostPlayedGame :=
      if 0 < mostPlayedGame.playCount.getD 0 then some mostPlayedGame else none
    averagePlaysPerGame :=
      if 0 < games.length then
        (2 * totalPlays + games.length) / (2 * games.length)
      else 0 }

/-- Forget the one field the recompute functions are allowed to change. -/
def eraseRank (g : Game) : Game := { g with rank := none }

/-- The list of `manualRank` values carried by records of the collection. -/
def manualRanksOf (games : List Game) : List Nat :=
  games.filterMap Game.manualRank

/-- Decides whether every pinned record of a collection has its `rank` equal
to its `manualRank`. -/
def pinnedRespected (l : List Game) : Bool :=
  l.all (fun g => g.manualRank == none || g.rank == g.manualRank)

/-- Concrete record: active, ten plays, no manual rank. -/
def gA : Game := { id := "A", playCount := some 10 }

/-- Concrete record: active, one play, pinned at rank 1. -/
def gB : Game := { id := "B", playCount := some 1, rank := some 1,
                   manualRank := some 1 }

/-- Concrete record: active, five plays, no manual rank. -/
def gC : Game := { id := "C", playCount := some 5 }

/-- Concrete record: inactive, never ranked. -/
def gD : Game := { id := "D", isActive := some false }

/-- Concrete record: carries a rank larger than the `999` sentinel. -/
def gE : Game := { id := "E", rank := some 1000 }

/-- Concrete record: no rank at all. -/
def gF : Game := { id := "F" }

/-! ### Basic facts about the rank-assignment loops -/

theorem assignRanks_length : ∀ (n : Nat) (l : List Game),
    (assignRanks n l).length = l.length
  | _, [] => rfl
  | n, _ :: gs => by simp [assignRanks, assignRanks_length (n + 1) gs]

theorem mem_assignRanks : ∀ {n : Nat} {l : List Game} {g : Game},
    g ∈ assignRanks n l → ∃ g0 ∈ l, ∃ m, g = { g0 with rank := some m }
  | n, g0 :: gs, g, h => by
    rcases List.mem_cons.mp h with h | h
    · exact ⟨g0, List.mem_cons_self g0 gs, n, h⟩
    · obtain ⟨g1, hg1, m, rfl⟩ := mem_assignRanks h
      exact ⟨g1, List.mem_cons_of_mem _ hg1, m, rfl⟩

theorem map_rank_assignRanks : ∀ (n : Nat) (l : List Game),
    (assignRanks n l).map Game.rank = (List.range' n l.length).map some
  | _, [] => rfl
  | n, g :: gs => by
    simp [assignRanks, List.range', map_rank_assignRanks (n + 1) gs]

theorem assignRanks_assignRanks : ∀ (n : Nat) (l : List Game),
    assignRanks n (assignRanks n l) = assignRanks n l
  | _, [] => rfl
  | n, g :: gs => by
    simp [assignRanks, assignRanks_assignRanks (n + 1) gs]

theorem eraseRank_setRank (g : Game) (r : Option Nat) :
    eraseRank { g with rank := r } = eraseRank g := rfl

theorem map_eraseRank_assignRanks : ∀ (n : Nat) (l : List Game),
    (assignRanks n l).map eraseRank = l.map eraseRank
  | _, [] => rfl
  | n, g :: gs => by
    simp [assignRanks, eraseRank_setRank, map_eraseRank_assignRanks (n + 1) gs]

theorem beatsOrd_setRank {a b : Game} {ra rb : Option Nat} :
    beatsOrd { a with rank := ra } { b with rank := rb } ↔ beatsOrd a b :=
  Iff.rfl

theorem pairwise_assignRanks : ∀ (n : Nat) {l : List Game},
    l.Pairwise beatsOrd → (assignRanks n l).Pairwise beatsOrd
  | _, [], _ => List.Pairwise.nil
  | n, g :: gs, h => by
    rw [List.pairwise_cons] at h
    refine List.pairwise_cons.mpr ⟨?_, pairwise_assignRanks (n + 1) h.2⟩
    intro b hb
    obtain ⟨b0, hb0, m, rfl⟩ := mem_assignRanks hb
    exact beatsOrd_setRank.mpr (h.1 b0 hb0)

theorem isActiveGame_setRank (g : Game) (r : Option Nat) :
    isActiveGame { g with rank := r } = isActiveGame g := rfl

theorem isActiveGame_overflowFix (n : Nat) (g : Game) :
    isActiveGame (overflowFix n g) = isActiveGame g := by
  unfold overflowFix; split <;> rfl

theorem isInactiveGame_overflowFix (n : Nat) (g : Game) :
    isInactiveGame (overflowFix n g) = isInactiveGame g := by
  unfold overflowFix; split <;> rfl

theorem id_overflowFix (n : Nat) (g : Game) :
    (overflowFix n g).id = g.id := by
  unfold overflowFix; split <;> rfl

theorem eraseRank_overflowFix (n : Nat) (g : Game) :
    eraseRank (overflowFix n g) = eraseRank g := by
  unfold overflowFix; split <;> rfl

theorem overflowFix_overflowFix (n : Nat) (g : Game) :
    overflowFix n (overflowFix n g) = overflowFix n g := by
  unfold overflowFix
  by_cases h : g.rank.getD 0 = 0 <;> simp [h]

theorem isInactiveGame_eq_not_active (g : Game) :
    isInactiveGame g = !(isActiveGame g) := by
  simp [isActiveGame, isInactiveGame, bne]

theorem not_active_of_inactive {g : Game} (h : isInactiveGame g = true) :
    isActiveGame g = false := by
  rw [isInactiveGame_eq_not_active] at h
  simp_all

theorem noManualRank_eq_not_has (g : Game) :
    noManualRank g = !(hasManualRank g) := by
  simp [hasManualRank, noManualRank, bne]

/-! ### Structure of the output of `calculateRankings` -/

theorem filter_partition_perm (p : Game → Bool) (q : Game → Bool)
    (hq : ∀ g, q g = !(p g)) (games : List Game) :
    (games.filter p ++ games.filter q).Perm games := by
  have hfun : q = fun g => !(p g) := funext hq
  rw [hfun]
  exact List.filter_append_perm p games

theorem calcRankings_filter_active (games : List Game) :
    (calculateRankings games).filter isActiveGame
      = assignRanks 1 ((games.filter isActiveGame).insertionSort beatsOrd) := by
  unfold calculateRankings
  rw [List.filter_append]
  have h1 : (assignRanks 1
      ((games.filter isActiveGame).insertionSort beatsOrd)).filter isActiveGame
      = assignRanks 1 ((games.filter isActiveGame).insertionSort beatsOrd) := by
    rw [List.filter_eq_self]
    intro g hg
    obtain ⟨g0, hg0, m, rfl⟩ := mem_assignRanks hg
    rw [isActiveGame_setRank]
    exact List.of_mem_filter ((List.mem_insertionSort beatsOrd).mp hg0)
  have h2 : (((games.filter isInactiveGame).map
      (overflowFix ((games.filter isActiveGame).insertionSort
        beatsOrd).length)).filter isActiveGame) = [] := by
    rw [List.filter_eq_nil_iff]
    intro g hg
    obtain ⟨g0, hg0, rfl⟩ := List.mem_map.mp hg
    rw [isActiveGame_overflowFix]
    exact Bool.not_eq_true _ ▸
      (not_active_of_inactive (List.of_mem_filter hg0)) ▸ (by simp)
  rw [h1, h2, List.append_nil]

theorem calcRankings_filter_inactive (games : List Game) :
    (calculateRankings games).filter isInactiveGame
      = (games.filter isInactiveGame).map
          (overflowFix
            ((games.filter isActiveGame).insertionSort beatsOrd).length) := by
  unfold calculateRankings
  rw [List.filter_append]
  have h1 : (assignRanks 1
      ((games.filter isActiveGame).insertionSort beatsOrd)).filter
        isInactiveGame = [] := by
    rw [List.filter_eq_nil_iff]
    intro g hg
    obtain ⟨g0, hg0, m, rfl⟩ := mem_assignRanks hg
    have hact : isActiveGame g0 = true :=
      List.of_mem_filter ((List.mem_insertionSort beatsOrd).mp hg0)
    have : isInactiveGame { g0 with rank := some m } = isInactiveGame g0 := rfl
    rw [this, isInactiveGame_eq_not_active, hact]
    simp
  have h2 : (((games.filter isInactiveGame).map
      (overflowFix ((games.filter isActiveGame).insertionSort
        beatsOrd).length)).filter isInactiveGame)
      = (games.filter isInactiveGame).map
          (overflowFix
            ((games.filter isActiveGame).insertionSort beatsOrd).length) := by
    rw [List.filter_eq_self]
    intro g hg
    obtain ⟨g0, hg0, rfl⟩ := List.mem_map.mp hg
    rw [isInactiveGame_overflowFix]
    exact List.of_mem_filter hg0
  rw [h1, h2, List.nil_append]

theorem calcRankings_density (games : List Game) :
    ((calculateRankings games).filter isActiveGame).map Game.rank
      = (List.range' 1 (games.filter isActiveGame).length).map some := by
  rw [calcRankings_filter_active, map_rank_assignRanks,
    List.length_insertionSort]

theorem calcRankings_sorted_active (games : List Game) :
    ((calculateRankings games).filter isActiveGame).Pairwise beatsOrd := by
  rw [calcRankings_filter_active]
  exact pairwise_assignRanks 1 (List.sorted_insertionSort beatsOrd _)

theorem calcRankings_decomp (games : List Game) :
    calculateRankings games
      = (calculateRankings games).filter isActiveGame
        ++ (calculateRankings games).filter isInactiveGame := by
  rw [calcRankings_filter_active, calcRankings_filter_inactive]
  rfl

theorem calcRankings_inactive_ids (games : List Game) :
    ((calculateRankings games).filter isInactiveGame).map Game.id
      = (games.filter isInactiveGame).map Game.id := by
  rw [calcRankings_filter_inactive, List.map_map]
  exact List.map_congr_left (fun g _ => id_overflowFix _ g)

theorem calcRankings_eraseRank_perm (games : List Game) :
    ((calculateRankings games).map eraseRank).Perm (games.map eraseRank) := by
  unfold calculateRankings
  rw [List.map_append, map_eraseRank_assignRanks, List.map_map]
  have h2 : (eraseRank ∘ overflowFix
      ((games.filter isActiveGame).insertionSort beatsOrd).length)
      = eraseRank := funext fun g => eraseRank_overflowFix _ g
  rw [h2]
  have hsort : (((games.filter isActiveGame).insertionSort beatsOrd).map
      eraseRank).Perm ((games.filter isActiveGame).map eraseRank) :=
    (List.perm_insertionSort beatsOrd _).map eraseRank
  refine (hsort.append (List.Perm.refl _)).trans ?_
  rw [← List.map_append]
  exact (filter_partition_perm isActiveGame isInactiveGame
    isInactiveGame_eq_not_active games).map eraseRank

/-! ### Idempotence of `calculateRankings` -/

theorem calcRankings_eq (games : List Game) :
    calculateRankings games
      = assignRanks 1 ((games.filter isActiveGame).insertionSort beatsOrd)
        ++ (games.filter isInactiveGame).map
            (overflowFix
              ((games.filter isActiveGame).insertionSort beatsOrd).length) :=
  rfl

theorem calcRankings_idem (games : List Game) :
    calculateRankings (calculateRankings games) = calculateRankings games := by
  have hsorted : List.Sorted beatsOrd
      (assignRanks 1 ((games.filter isActiveGame).insertionSort beatsOrd)) :=
    pairwise_assignRanks 1 (List.sorted_insertionSort beatsOrd _)
  have hfix : (overflowFix
        ((games.filter isActiveGame).insertionSort beatsOrd).length ∘
      overflowFix ((games.filter isActiveGame).insertionSort beatsOrd).length)
      = overflowFix
          ((games.filter isActiveGame).insertionSort beatsOrd).length :=
    funext fun g => overflowFix_overflowFix _ g
  rw [calcRankings_eq (calculateRankings games), calcRankings_filter_active,
    calcRankings_filter_inactive, hsorted.insertionSort_eq,
    assignRanks_assignRanks, assignRanks_length, List.map_map, hfix]
  exact (calcRankings_eq games).symm

/-! ### The auto-rank counter of the overrides recompute -/

theorem nextFreeAux_not_mem : ∀ (fuel : Nat) (used : Finset Nat) (n : Nat),
    (used.filter (fun m => n ≤ m)).card < fuel →
    nextFreeAux fuel used n ∉ used
  | 0, _, _, h => absurd h (Nat.not_lt_zero _)
  | fuel + 1, used, n, h => by
    unfold nextFreeAux
    by_cases hn : n ∈ used
    · rw [if_pos hn]
      apply nextFreeAux_not_mem
      have hmem : n ∈ used.filter (fun m => n ≤ m) :=
        Finset.mem_filter.mpr ⟨hn, Nat.le_refl n⟩
      have herase : used.filter (fun m => n + 1 ≤ m)
          = (used.filter (fun m => n ≤ m)).erase n := by
        ext x
        simp only [Finset.mem_filter, Finset.mem_erase]
        constructor
        · intro hx
          exact ⟨by omega, hx.1, by omega⟩
        · intro hx
          exact ⟨hx.2.1, by omega⟩
      rw [herase, Finset.card_erase_of_mem hmem]
      have hpos : 0 < (used.filter (fun m => n ≤ m)).card :=
        Finset.card_pos.mpr ⟨n, hmem⟩
      omega
    · rw [if_neg hn]
      exact hn

theorem nextFree_not_mem (used : Finset Nat) (n : Nat) :
    nextFree used n ∉ used :=
  nextFreeAux_not_mem _ used n
    (Nat.lt_of_le_of_lt (Finset.card_filter_le _ _) (Nat.lt_succ_self _))

theorem mem_assignAutoRanks :
    ∀ {used : Finset Nat} {next : Nat} {l : List Game} {g : Game},
    g ∈ assignAutoRanks used next l →
    ∃ g0 ∈ l, ∃ r, g = { g0 with rank := some r } ∧ r ∉ used
  | used, next, g0 :: gs, g, h => by
    rcases List.mem_cons.mp h with h | h
    · exact ⟨g0, List.mem_cons_self g0 gs, nextFree used next, h,
        nextFree_not_mem used next⟩
    · obtain ⟨g1, hg1, r, rfl, hr⟩ := mem_assignAutoRanks h
      exact ⟨g1, List.mem_cons_of_mem _ hg1, r, rfl,
        fun hmem => hr (Finset.mem_insert_of_mem hmem)⟩

theorem map_eraseRank_assignAutoRanks :
    ∀ (used : Finset Nat) (next : Nat) (l : List Game),
    (assignAutoRanks used next l).map eraseRank = l.map eraseRank
  | _, _, [] => rfl
  | used, next, g :: gs => by
    simp [assignAutoRanks, eraseRank_setRank,
      map_eraseRank_assignAutoRanks _ _ gs]

/-! ### Structure of the output of `calculateRankingsWithManualOverrides` -/

theorem calcOverrides_eraseRank_perm (games : List Game) :
    ((calculateRankingsWithManualOverrides games).map eraseRank).Perm
      (games.map eraseRank) := by
  unfold calculateRankingsWithManualOverrides
  refine ((List.perm_insertionSort rankOrd _).map eraseRank).trans ?_
  rw [List.map_append, List.map_map, map_eraseRank_assignAutoRanks]
  have hpin : (eraseRank ∘ fun g => { g with rank := g.manualRank })
      = eraseRank := funext fun g => rfl
  rw [hpin]
  have hsort : (((games.filter noManualRank).insertionSort beatsOrd).map
      eraseRank).Perm ((games.filter noManualRank).map eraseRank) :=
    (List.perm_insertionSort beatsOrd _).map eraseRank
  refine ((List.Perm.refl _).append hsort).trans ?_
  rw [← List.map_append]
  exact (filter_partition_perm hasManualRank noManualRank
    noManualRank_eq_not_has games).map eraseRank

theorem filterMap_manualRank_filter (games : List Game) :
    (games.filter hasManualRank).filterMap Game.manualRank
      = games.filterMap Game.manualRank := by
  induction games with
  | nil => rfl
  | cons g gs ih =>
    by_cases h : hasManualRank g = true
    · rw [List.filter_cons_of_pos h]
      cases hm : g.manualRank with
      | none => rw [List.filterMap_cons_none hm, List.filterMap_cons_none hm, ih]
      | some v =>
        rw [List.filterMap_cons_some hm, List.filterMap_cons_some hm, ih]
    · have hm : g.manualRank = none := by
        simp [hasManualRank] at h
        exact h
      rw [List.filter_cons_of_neg (by simp [h]), List.filterMap_cons_none hm, ih]

theorem overrides_pinned_and_disjoint (games : List Game) :
    (∀ g ∈ calculateRankingsWithManualOverrides games,
        g.manualRank ≠ none → g.rank = g.manualRank)
    ∧ (∀ g ∈ calculateRankingsWithManualOverrides games,
        g.manualRank = none → ∀ r, g.rank = some r →
          r ∉ manualRanksOf games) := by
  have hmem : ∀ g ∈ calculateRankingsWithManualOverrides games,
      (∃ g0 ∈ games.filter hasManualRank, g = { g0 with rank := g0.manualRank })
      ∨ (∃ g0 ∈ games.filter noManualRank, ∃ r,
          g = { g0 with rank := some r } ∧
          r ∉ games.filterMap Game.manualRank) := by
    intro g hg
    unfold calculateRankingsWithManualOverrides at hg
    rcases List.mem_append.mp ((List.mem_insertionSort rankOrd).mp hg)
      with h | h
    · obtain ⟨g0, hg0, rfl⟩ := List.mem_map.mp h
      exact Or.inl ⟨g0, hg0, rfl⟩
    · obtain ⟨g0, hg0, r, rfl, hr⟩ := mem_assignAutoRanks h
      refine Or.inr ⟨g0, (List.mem_insertionSort beatsOrd).mp hg0, r, rfl, ?_⟩
      intro hmem
      exact hr (List.mem_toFinset.mpr
        ((filterMap_manualRank_filter games) ▸ hmem))
  constructor
  · intro g hg hman
    rcases hmem g hg with ⟨g0, _, rfl⟩ | ⟨g0, hg0, r, rfl, _⟩
    · rfl
    · have : g0.manualRank = none := by
        have := List.of_mem_filter hg0
        simpa [noManualRank] using this
      exact absurd this hman
  · intro g hg hman r hr
    rcases hmem g hg with ⟨g0, hg0, rfl⟩ | ⟨g0, _, r0, rfl, hr0⟩
    · have : hasManualRank g0 = true := List.of_mem_filter hg0
      have hne : g0.manualRank ≠ none := by
        simpa [hasManualRank] using this
      exact absurd hman hne
    · have hrr : r0 = r := Option.some.inj hr
      exact hrr ▸ hr0

/-! ### The in-place update of `games[gameIndex]` -/

theorem modifyAt_eq_take_drop (f : Game → Game) :
    ∀ (i : Nat) (l : List Game) (g : Game), l[i]? = some g →
    modifyAt f i l = l.take i ++ f g :: l.drop (i + 1)
  | 0, g0 :: gs, g, h => by
    have : g0 = g := by simpa using h
    subst this
    rfl
  | i + 1, g0 :: gs, g, h => by
    have h2 : gs[i]? = some g := by simpa using h
    simp [modifyAt, modifyAt_eq_take_drop f i gs g h2]

/-! ### The statistics fold -/

theorem foldl_playCount_sum : ∀ (l : List Game) (n : Nat),
    l.foldl (fun sum g => sum + g.playCount.getD 0) n
      = n + (l.map (fun g => g.playCount.getD 0)).sum
  | [], n => by simp
  | g :: gs, n => by
    simp [List.foldl_cons, foldl_playCount_sum gs, Nat.add_assoc]

theorem foldl_mostPlayed_spec : ∀ (l : List Game) (acc : Game),
    (l.foldl (fun mx g =>
        if mx.playCount.getD 0 < g.playCount.getD 0 then g else mx) acc = acc
      ∨ l.foldl (fun mx g =>
        if mx.playCount.getD 0 < g.playCount.getD 0 then g else mx) acc ∈ l)
    ∧ acc.playCount.getD 0
        ≤ (l.foldl (fun mx g =>
            if mx.playCount.getD 0 < g.playCount.getD 0 then g else mx)
            acc).playCount.getD 0
    ∧ ∀ g ∈ l, g.playCount.getD 0
        ≤ (l.foldl (fun mx g =>
            if mx.playCount.getD 0 < g.playCount.getD 0 then g else mx)
            acc).playCount.getD 0
  | [], acc => ⟨Or.inl rfl, Nat.le_refl _, by simp⟩
  | g :: gs, acc => by
    have ih := foldl_mostPlayed_spec gs
      (if acc.playCount.getD 0 < g.playCount.getD 0 then g else acc)
    rw [List.foldl_cons]
    refine ⟨?_, ?_, ?_⟩
    · rcases ih.1 with h | h
      · rw [h]
        by_cases hc : acc.playCount.getD 0 < g.playCount.getD 0
        · rw [if_pos hc]
          exact Or.inr (List.mem_cons_self g gs)
        · rw [if_neg hc]
          exact Or.inl rfl
      · exact Or.inr (List.mem_cons_of_mem g h)
    · refine Nat.le_trans ?_ ih.2.1
      by_cases hc : acc.playCount.getD 0 < g.playCount.getD 0
      · rw [if_pos hc]
        exact Nat.le_of_lt hc
      · rw [if_neg hc]
    · intro g1 hg1
      rcases List.mem_cons.mp hg1 with h | h
      · subst h
        refine Nat.le_trans ?_ ih.2.1
        by_cases hc : acc.playCount.getD 0 < g1.playCount.getD 0
        · rw [if_pos hc]
        · rw [if_neg hc]
          omega
      · exact ih.2.2 g1 h

/-! ### The claimed properties -/

/-- C1: for every collection with no manual overrides present, after
`calculateRankings` the ranks of the active records (`isActive ≠ false`) are
exactly `1..N` in order (`N` = number of active records), the active block is
sorted by the play-count comparator, the output is the active block followed
by the inactive block, and the inactive records keep their original relative
order. -/
theorem claim1_density_and_order (games : List Game)
    (_hman : ∀ g ∈ games, g.manualRank = none) :
    ((calculateRankings games).filter isActiveGame).map Game.rank
        = (List.range' 1 (games.filter isActiveGame).length).map some
    ∧ ((calculateRankings games).filter isActiveGame).Pairwise beatsOrd
    ∧ calculateRankings games
        = (calculateRankings games).filter isActiveGame
          ++ (calculateRankings games).filter isInactiveGame
    ∧ ((calculateRankings games).filter isInactiveGame).map Game.id
        = (games.filter isInactiveGame).map Game.id :=
  ⟨calcRankings_density games, calcRankings_sorted_active games,
    calcRankings_decomp games, calcRankings_inactive_ids games⟩

/-- Witness for C1 at the concrete collection `[gA, gC, gD]` (two active
records, one inactive, no manual ranks). -/
theorem claim1_density_and_order_witness :
    ((calculateRankings [gA, gC, gD]).filter isActiveGame).map Game.rank
        = (List.range' 1 ([gA, gC, gD].filter isActiveGame).length).map some
    ∧ ((calculateRankings [gA, gC, gD]).filter isActiveGame).Pairwise beatsOrd
    ∧ calculateRankings [gA, gC, gD]
        = (calculateRankings [gA, gC, gD]).filter isActiveGame
          ++ (calculateRankings [gA, gC, gD]).filter isInactiveGame
    ∧ ((calculateRankings [gA, gC, gD]).filter isInactiveGame).map Game.id
        = ([gA, gC, gD].filter isInactiveGame).map Game.id :=
  claim1_density_and_order [gA, gC, gD] (by decide)

/-- C2: after `calculateRankingsWithManualOverrides` (the recompute triggered
by `setGameRank`), when the pinned `manualRank` values are duplicate-free,
every pinned record's final `rank` equals its `manualRank` and no auto-ranked
record's final `rank` lies in the set of `manualRank` values. -/
theorem claim2_override_disjointness (games : List Game)
    (_hnodup : (manualRanksOf games).Nodup) :
    (∀ g ∈ calculateRankingsWithManualOverrides games,
        g.manualRank ≠ none → g.rank = g.manualRank)
    ∧ (∀ g ∈ calculateRankingsWithManualOverrides games,
        g.manualRank = none → ∀ r, g.rank = some r →
          r ∉ manualRanksOf games) :=
  overrides_pinned_and_disjoint games

/-- Witness for C2 at the concrete collection `[gA, gB]` (one auto record,
one record pinned at rank 1). -/
theorem claim2_override_disjointness_witness :
    (∀ g ∈ calculateRankingsWithManualOverrides [gA, gB],
        g.manualRank ≠ none → g.rank = g.manualRank)
    ∧ (∀ g ∈ calculateRankingsWithManualOverrides [gA, gB],
        g.manualRank = none → ∀ r, g.rank = some r →
          r ∉ manualRanksOf [gA, gB]) :=
  claim2_override_disjointness [gA, gB] (by decide)

/-- C3 counterexample: `trackGamePlay` recomputes with the plain
`calculateRankings`, ignoring `manualRank`.  On `[gA, gB]` with `gB` pinned
at rank 1, recording a play for `"A"` leaves `gB` with `rank = 2` even
though `manualRank = 1`, so `pinnedRespected` is `false` on the saved
collection. -/
theorem claim3_cex :
    ((trackGamePlay [gA, gB] "A" 100).toOption.map
        (fun p => p.2.map (fun g => (g.id, g.manualRank, g.rank))))
      = some [("A", none, some 1), ("B", some 1, some 2)]
    ∧ (trackGamePlay [gA, gB] "A" 100).toOption.map
        (fun p => pinnedRespected p.2) = some false := by
  decide

/-- C3 (amended): when the target id is present, `trackGamePlay` succeeds and
saves exactly `calculateRankings` of the play-incremented collection — the
plain recompute that ignores `manualRank` — so all active records (pinned or
not) receive the dense automatic ranks `1..N`. -/
theorem claim3_plain_recompute (games : List Game) (gameId : String)
    (now i : Nat)
    (hfind : games.findIdx? (fun g => g.id == gameId) = some i) :
    ∃ r out, trackGamePlay games gameId now = Except.ok (r, out)
      ∧ out = calculateRankings (modifyAt (bumpPlay now) i games)
      ∧ (out.filter isActiveGame).map Game.rank
          = (List.range' 1
              ((modifyAt (bumpPlay now) i games).filter
                isActiveGame).length).map some := by
  simp only [trackGamePlay, hfind]
  exact ⟨_, _, rfl, rfl, calcRankings_density _⟩

/-- Witness for the amended C3 at the concrete collection `[gA, gB]`. -/
theorem claim3_plain_recompute_witness :
    ∃ r out, trackGamePlay [gA, gB] "A" 100 = Except.ok (r, out)
      ∧ out = calculateRankings (modifyAt (bumpPlay 100) 0 [gA, gB])
      ∧ (out.filter isActiveGame).map Game.rank
          = (List.range' 1
              ((modifyAt (bumpPlay 100) 0 [gA, gB]).filter
                isActiveGame).length).map some :=
  claim3_plain_recompute [gA, gB] "A" 100 0 (by decide)

/-- C4: recomputing rankings twice in a row with no intervening mutation
yields the same collection (hence the same rank for every record) as
recomputing once. -/
theorem claim4_idempotent (games : List Game) :
    calculateRankings (calculateRankings games) = calculateRankings games :=
  calcRankings_idem games

/-- C5: when the target id is at index `i`, `trackGamePlay` succeeds; the
collection it ranks and saves is the input with exactly the record at `i`
replaced by its bump (play count increased by exactly one, with a missing
count read as `0`, and `lastPlayed` set to the non-null current time) and
every other record untouched; the saved collection is, up to ranking order
and the `rank` field, exactly that bumped collection, so no other record's
play count changes. -/
theorem claim5_monotonic_playcount (games : List Game) (gameId : String)
    (now i : Nat) (old : Game)
    (hfind : games.findIdx? (fun g => g.id == gameId) = some i)
    (hold : games[i]? = some old) :
    ∃ r out, trackGamePlay games gameId now = Except.ok (r, out)
      ∧ modifyAt (bumpPlay now) i games
          = games.take i ++ bumpPlay now old :: games.drop (i + 1)
      ∧ (out.map eraseRank).Perm
          ((games.take i ++ bumpPlay now old :: games.drop (i + 1)).map
            eraseRank)
      ∧ (bumpPlay now old).playCount = some (old.playCount.getD 0 + 1)
      ∧ (bumpPlay now old).lastPlayed = some now := by
  have hmod := modifyAt_eq_take_drop (bumpPlay now) i games old hold
  simp only [trackGamePlay, hfind]
  refine ⟨_, _, rfl, hmod, ?_, rfl, rfl⟩
  rw [← hmod]
  exact calcRankings_eraseRank_perm _

/-- Witness for C5 at the one-record collection `[gA]`. -/
theorem claim5_monotonic_playcount_witness :
    ∃ r out, trackGamePlay [gA] "A" 7 = Except.ok (r, out)
      ∧ modifyAt (bumpPlay 7) 0 [gA]
          = [gA].take 0 ++ bumpPlay 7 gA :: [gA].drop 1
      ∧ (out.map eraseRank).Perm
          (([gA].take 0 ++ bumpPlay 7 gA :: [gA].drop 1).map eraseRank)
      ∧ (bumpPlay 7 gA).playCount = some (gA.playCount.getD 0 + 1)
      ∧ (bumpPlay 7 gA).lastPlayed = some 7 :=
  claim5_monotonic_playcount [gA] "A" 7 0 gA (by decide) (by decide)

/-- C6: when the target id is absent from the collection, `trackGamePlay`,
`updateGameStatus` and `setGameRank` each fail with the not-found error; the
failure happens after load and before any mutation, and since an error
carries no collection, nothing is written to the store. -/
theorem claim6_notfound (games : List Game) (gameId : String) (now : Nat)
    (active : Bool) (newRank : Nat)
    (habsent : ∀ g ∈ games, g.id ≠ gameId) :
    trackGamePlay games gameId now = Except.error
        ("Failed to track game play: Game with ID " ++ gameId ++ " not found")
    ∧ updateGameStatus games gameId active now = Except.error
        ("Failed to update game status: Game with ID " ++ gameId
          ++ " not found")
    ∧ setGameRank games gameId newRank now = Except.error
        ("Failed to set game rank: Game with ID " ++ gameId
          ++ " not found") := by
  have hnone : games.findIdx? (fun g => g.id == gameId) = none :=
    List.findIdx?_eq_none_iff.mpr (fun g hg => by simpa using habsent g hg)
  simp only [trackGamePlay, updateGameStatus, setGameRank, hnone]
  exact ⟨trivial, trivial, trivial⟩

/-- Witness for C6: the id `"Z"` is absent from `[gA]`. -/
theorem claim6_notfound_witness :
    trackGamePlay [gA] "Z" 0 = Except.error
        ("Failed to track game play: Game with ID " ++ "Z" ++ " not found")
    ∧ updateGameStatus [gA] "Z" true 0 = Except.error
        ("Failed to update game status: Game with ID " ++ "Z"
          ++ " not found")
    ∧ setGameRank [gA] "Z" 3 0 = Except.error
        ("Failed to set game rank: Game with ID " ++ "Z"
          ++ " not found") :=
  claim6_notfound [gA] "Z" 0 true 3 (by decide)

/-- C7 counterexample: the rank `3/2` is not a positive integer, yet the
`/set-rank` route does not reject it: `3/2` is truthy and `3/2 < 1` is
false, so the check passes, `parseInt` truncates it to `1`, and the record
is mutated (pinned at rank 1) and the collection saved — not the
invalid-argument error the claim requires. -/
theorem claim7_cex :
    (setRankEndpoint [gA] "A" (3 / 2 : ℚ) 5).toOption.map
        (fun p => p.2.map (fun g => (g.id, g.manualRank, g.rank)))
      = some [("A", some 1, some 1)] := by
  have h1 : ¬(("A" : String) = "") := by decide
  have h2 : ¬((3 / 2 : ℚ) = 0) := by norm_num
  have h3 : ¬((3 / 2 : ℚ) < 1) := by norm_num
  have hcond : ¬(("A" : String) = "" ∨ (3 / 2 : ℚ) = 0 ∨ (3 / 2 : ℚ) < 1) := by
    rintro (h | h | h)
    · exact h1 h
    · exact h2 h
    · exact h3 h
  have hfloor : (Int.floor (3 / 2 : ℚ)).toNat = 1 := by
    have : Int.floor (3 / 2 : ℚ) = 1 := by
      rw [Int.floor_eq_iff]
      constructor <;> norm_num
    rw [this]
    rfl
  unfold setRankEndpoint
  rw [if_neg hcond, hfloor]
  decide

/-- C7 (amended): the `/set-rank` route rejects, before any record is
mutated or anything is written, exactly the rank arguments that are falsy or
compare below `1` — in particular `0` and every negative rank; a rank that
is `≥ 1` but not an integer (such as `3/2`) instead passes the check and is
truncated by `parseInt` before the service mutates the record. -/
theorem claim7_invalid_rank_rejected (games : List Game) (gameId : String)
    (rank : ℚ) (now : Nat) (hbad : rank < 1) :
    setRankEndpoint games gameId rank now
      = Except.error "Game ID and valid rank (>= 1) are required" := by
  unfold setRankEndpoint
  rw [if_pos (Or.inr (Or.inr hbad))]

/-- Witness for the amended C7 at rank `0`. -/
theorem claim7_invalid_rank_rejected_witness :
    setRankEndpoint [gA] "A" 0 5
      = Except.error "Game ID and valid rank (>= 1) are required" :=
  claim7_invalid_rank_rejected [gA] "A" 0 5 zero_lt_one

/-- C8 counterexample: the sort key is the constant sentinel `999`, not "the
largest possible value": on `[gE, gF]` with `gE.rank = 1000` and `gF.rank`
missing, `getTopGames` puts the missing-rank record first, so a record with
a missing rank does not sort after every record that has a rank. -/
theorem claim8_cex :
    (getTopGames [gE, gF] 2 false).map Game.rank = [none, some 1000]
    ∧ ¬ List.Pairwise (fun a b : Option Nat => a.isSome = true ∨ b = none)
        ((getTopGames [gE, gF] 2 false).map Game.rank) := by
  decide

/-- C8 (amended): `getTopGames` filters (when `activeOnly`) to active
records, stable-sorts ascending by the key `rank || 999` (a missing or zero
rank is treated as the sentinel `999`, so it sorts after ranks below `999`
but before ranks above `999`), and returns the first `limit` entries;
`limit = 0` returns the empty sequence regardless of the collection. -/
theorem claim8_topgames (games : List Game) (limit : Nat)
    (activeOnly : Bool) :
    List.Pairwise rankOrd (getTopGames games limit activeOnly)
    ∧ getTopGames games 0 activeOnly = []
    ∧ (getTopGames games limit activeOnly).length
        = min limit
            (if activeOnly then (games.filter isActiveGame).length
             else games.length)
    ∧ ∀ g ∈ getTopGames games limit activeOnly,
        g ∈ games ∧ (activeOnly = true → isActiveGame g = true) := by
  refine ⟨?_, ?_, ?_, ?_⟩
  · exact List.Pairwise.sublist (List.take_sublist _ _)
      (List.sorted_insertionSort rankOrd _)
  · simp [getTopGames]
  · show (getTopGames games limit activeOnly).length = _
    unfold getTopGames
    cases activeOnly <;>
      simp [List.length_take, List.length_insertionSort]
  · intro g hg
    unfold getTopGames at hg
    have hg2 := (List.mem_insertionSort rankOrd).mp (List.mem_of_mem_take hg)
    cases activeOnly with
    | false => exact ⟨hg2, by simp⟩
    | true =>
        simp only [if_pos] at hg2
        exact ⟨(List.mem_filter.mp hg2).1,
          fun _ => (List.mem_filter.mp hg2).2⟩

/-- C9: `getGameStatistics` reports the total record count, the active
count, inactive = total − active, the sum of all play counts (missing counts
read as `0`), the record with the strictly highest play count (`none` when
every play count is zero), and the average plays per record rounded to the
nearest integer (half up, `0` for an empty collection). -/
theorem claim9_statistics (games : List Game) :
    (getGameStatistics games).totalGames = games.length
    ∧ (getGameStatistics games).activeGames
        = (games.filter isActiveGame).length
    ∧ (getGameStatistics games).inactiveGames
        = games.length - (games.filter isActiveGame).length
    ∧ (getGameStatistics games).totalPlays
        = (games.map (fun g => g.playCount.getD 0)).sum
    ∧ (match (getGameStatistics games).mostPlayedGame with
       | none => ∀ g ∈ games, g.playCount.getD 0 = 0
       | some m => m ∈ games ∧ 0 < m.playCount.getD 0
           ∧ ∀ g ∈ games, g.playCount.getD 0 ≤ m.playCount.getD 0)
    ∧ (getGameStatistics games).averagePlaysPerGame
        = (if games.length = 0 then 0
           else (2 * (games.map (fun g => g.playCount.getD 0)).sum
                  + games.length) / (2 * games.length)) := by
  have hsum : (getGameStatistics games).totalPlays
      = (games.map (fun g => g.playCount.getD 0)).sum := by
    show games.foldl (fun sum g => sum + g.playCount.getD 0) 0 = _
    rw [foldl_playCount_sum]
    exact Nat.zero_add _
  refine ⟨rfl, rfl, rfl, hsum, ?_, ?_⟩
  · have hfold := foldl_mostPlayed_spec games zeroPlays
    have hproj : (getGameStatistics games).mostPlayedGame
        = (if 0 < (games.foldl (fun mx g =>
              if mx.playCount.getD 0 < g.playCount.getD 0 then g else mx)
              zeroPlays).playCount.getD 0
           then some (games.foldl (fun mx g =>
              if mx.playCount.getD 0 < g.playCount.getD 0 then g else mx)
              zeroPlays)
           else none) := rfl
    rw [hproj]
    by_cases h : 0 < (games.foldl (fun mx g =>
        if mx.playCount.getD 0 < g.playCount.getD 0 then g else mx)
        zeroPlays).playCount.getD 0
    · rw [if_pos h]
      refine ⟨?_, h, hfold.2.2⟩
      rcases hfold.1 with he | hm
      · rw [he] at h
        simp [zeroPlays] at h
      · exact hm
    · rw [if_neg h]
      intro g hg
      have := hfold.2.2 g hg
      omega
  · have hproj : (getGameStatistics games).averagePlaysPerGame
        = (if 0 < games.length then
            (2 * games.foldl (fun sum g => sum + g.playCount.getD 0) 0
              + games.length) / (2 * games.length)
           else 0) := rfl
    rw [hproj, foldl_playCount_sum]
    by_cases h : games.length = 0
    · rw [if_neg (by omega), if_pos h]
    · rw [if_pos (by omega), if_neg h]
      simp

/-- C10: both recompute functions return a permutation of the input
collection in which every record is unchanged except possibly in its `rank`
field (in particular no record is added or removed and ids are
preserved). -/
theorem claim10_permutation (games : List Game) :
    ((calculateRankings games).map eraseRank).Perm (games.map eraseRank)
    ∧ ((calculateRankingsWithManualOverrides games).map eraseRank).Perm
        (games.map eraseRank) :=
  ⟨calcRankings_eraseRank_perm games, calcOverrides_eraseRank_perm games⟩
